import Mathlib

/-!
Verification of the Dialect_recognition radio-recording pipeline.

Shallow embedding of the Python sources:
  * `scheduled_recorder.py` — `StationMonitor`, `ScheduledRecorder.record_city`,
    `ScheduledRecorder.retry_recording`, `ScheduledRecorder.schedule_all_cities`;
  * `arabic_radio_recorder.py` (and the identical copy in `check_all.py`) —
    `extract_direct_stream_url` regex scans, `record_stream` playlist parsing,
    `verify_stream_url`, `verify_stations_health`,
    `ArabicRadioStations.get_all_stations`.

Machine integers do not overflow in any of the modelled code paths (Python ints
are unbounded), so `Nat`/`Int` are exact models.  Network effects are modelled
by explicit oracles (an `Option`-valued result is `none` when the request
raises).  Python dicts are modelled either extensionally as
`String → Option String` (where only lookup semantics matter) or as
association lists in iteration order (where iteration matters).
-/

namespace RadioRec

/-! ## StationMonitor (`scheduled_recorder.py`, lines 29-63)

`failed_stations : Dict[str, int]` is modelled extensionally as
`String → Option Nat`, `working_stations : Set[str]` as `String → Bool`.
The `last_verification` timestamp dictionary is carried as an abstract
`String → Option Nat` clock-stamp map; the clock value written by
`mark_working` is irrelevant to every property below and is modelled as an
unconstrained argument of the event. -/

structure MonitorState where
  maxRetries : Nat
  retryDelay : Nat
  failedStations : String → Option Nat
  workingStations : String → Bool
  lastVerification : String → Option Nat

/-- `StationMonitor.__init__(max_retries=3, retry_delay=300)`. -/
def initMonitor (maxRetries : Nat := 3) (retryDelay : Nat := 300) : MonitorState :=
  { maxRetries := maxRetries
    retryDelay := retryDelay
    failedStations := fun _ => none
    workingStations := fun _ => false
    lastVerification := fun _ => none }

/-- Current consecutive failure count: `self.failed_stations.get(station_id, 0)`. -/
def failCount (st : MonitorState) (stationId : String) : Nat :=
  (st.failedStations stationId).getD 0

/-- `StationMonitor.mark_failed`: remove from the working set if present, then
`failed_stations[id] = failed_stations.get(id, 0) + 1`. -/
def markFailed (st : MonitorState) (stationId : String) : MonitorState :=
  { st with
    workingStations := fun x => if x = stationId then false else st.workingStations x
    failedStations := fun x =>
      if x = stationId then some (failCount st stationId + 1) else st.failedStations x }

/-- `StationMonitor.mark_working`: add to the working set, delete any failure
entry, and record the verification time `now`. -/
def markWorking (st : MonitorState) (stationId : String) (now : Nat) : MonitorState :=
  { st with
    workingStations := fun x => if x = stationId then true else st.workingStations x
    failedStations := fun x => if x = stationId then none else st.failedStations x
    lastVerification := fun x => if x = stationId then some now else st.lastVerification x }

/-- `StationMonitor.should_retry`: `failed_stations.get(id, 0) < max_retries`. -/
def shouldRetry (st : MonitorState) (stationId : String) : Bool :=
  failCount st stationId < st.maxRetries

/-- `StationMonitor.get_retry_delay`: `retry_delay * (failed_stations.get(id, 0) + 1)`. -/
def getRetryDelay (st : MonitorState) (stationId : String) : Nat :=
  st.retryDelay * (failCount st stationId + 1)

/-- An externally observable monitor event: one `mark_failed` or `mark_working`
call (`mark_working` carries the clock value recorded by the call). -/
inductive MonitorEvent where
  | failed (stationId : String)
  | working (stationId : String) (now : Nat)

def monitorStep (st : MonitorState) (ev : MonitorEvent) : MonitorState :=
  match ev with
  | .failed stationId => markFailed st stationId
  | .working stationId now => markWorking st stationId now

def runMonitor (st : MonitorState) (evs : List MonitorEvent) : MonitorState :=
  evs.foldl monitorStep st

/-- A station is currently in the Failed status. -/
def inFailed (st : MonitorState) (stationId : String) : Bool :=
  (st.failedStations stationId).isSome

/-- The one-status-at-a-time invariant. -/
def statusInvariant (st : MonitorState) : Prop :=
  ∀ stationId, ¬ (st.workingStations stationId = true ∧ inFailed st stationId = true)

theorem statusInvariant_init (mr rd : Nat) : statusInvariant (initMonitor mr rd) := by
  intro stationId h
  simp [initMonitor, inFailed] at h

theorem statusInvariant_step (st : MonitorState) (ev : MonitorEvent)
    (h : statusInvariant st) : statusInvariant (monitorStep st ev) := by
  intro stationId hc
  cases ev with
  | failed j =>
    by_cases hj : stationId = j
    · subst hj
      simp [monitorStep, markFailed, inFailed] at hc
    · simp [monitorStep, markFailed, inFailed, hj] at hc
      exact h stationId (by simpa [inFailed] using hc)
  | working j now =>
    by_cases hj : stationId = j
    · subst hj
      simp [monitorStep, markWorking, inFailed] at hc
    · simp [monitorStep, markWorking, inFailed, hj] at hc
      exact h stationId (by simpa [inFailed] using hc)

theorem statusInvariant_run (st : MonitorState) (evs : List MonitorEvent)
    (h : statusInvariant st) : statusInvariant (runMonitor st evs) := by
  induction evs generalizing st with
  | nil => exact h
  | cons ev evs ih => exact ih _ (statusInvariant_step st ev h)

/-- **C4.** For every sequence of `mark_working`/`mark_failed` calls starting
from a fresh `StationMonitor`: (1) no station is ever simultaneously in the
working set and in the failed map; (2) any `mark_working` transition leaves the
station's failure count at 0; (3) a single step that keeps a station in the
Failed status never decreases its failure count. -/
theorem stationMonitor_status_invariants
    (mr rd : Nat) (evs : List MonitorEvent) (stationId : String) :
    (¬ ((runMonitor (initMonitor mr rd) evs).workingStations stationId = true ∧
        inFailed (runMonitor (initMonitor mr rd) evs) stationId = true))
    ∧ (∀ (st : MonitorState) (now : Nat),
        failCount (markWorking st stationId now) stationId = 0)
    ∧ (∀ (st : MonitorState) (ev : MonitorEvent),
        inFailed st stationId = true →
        inFailed (monitorStep st ev) stationId = true →
        failCount st stationId ≤ failCount (monitorStep st ev) stationId) := by
  refine ⟨statusInvariant_run _ evs (statusInvariant_init mr rd) stationId, ?_, ?_⟩
  · intro st now
    simp [markWorking, failCount]
  · intro st ev _ hafter
    cases ev with
    | failed j =>
      by_cases hj : stationId = j
      · subst hj
        simp [monitorStep, markFailed, failCount]
      · simp [monitorStep, markFailed, failCount, hj]
    | working j now =>
      by_cases hj : stationId = j
      · subst hj
        simp [monitorStep, markWorking, inFailed] at hafter
      · simp [monitorStep, markWorking, failCount, hj]

/-- Witness for C4 at a concrete trace: fail, recover, fail again. -/
theorem stationMonitor_status_invariants_witness :
    (¬ ((runMonitor (initMonitor 3 300)
          [.failed "a", .working "a" 7, .failed "a"]).workingStations "a" = true ∧
        inFailed (runMonitor (initMonitor 3 300)
          [.failed "a", .working "a" 7, .failed "a"]) "a" = true))
    ∧ failCount (markWorking (initMonitor 3 300) "a" 7) "a" = 0
    ∧ failCount (markFailed (initMonitor 3 300) "a") "a" ≤
        failCount (monitorStep (markFailed (initMonitor 3 300) "a") (.failed "a")) "a" := by
  have h := stationMonitor_status_invariants 3 300
      [.failed "a", .working "a" 7, .failed "a"] "a"
  exact ⟨h.1, h.2.1 (initMonitor 3 300) 7,
    h.2.2 (markFailed (initMonitor 3 300) "a") (.failed "a") (by decide) (by decide)⟩

/-! ### Consecutive failures (C7, C8) -/

/-- `n` consecutive `mark_failed` calls for one station. -/
def failN (st : MonitorState) (stationId : String) : Nat → MonitorState
  | 0 => st
  | n + 1 => markFailed (failN st stationId n) stationId

theorem failCount_markFailed (st : MonitorState) (stationId : String) :
    failCount (markFailed st stationId) stationId = failCount st stationId + 1 := by
  simp [markFailed, failCount]

theorem failCount_failN (st : MonitorState) (stationId : String) (n : Nat) :
    failCount (failN st stationId n) stationId = failCount st stationId + n := by
  induction n with
  | zero => rfl
  | succ n ih => rw [failN, failCount_markFailed, ih]; omega

theorem maxRetries_failN (st : MonitorState) (stationId : String) (n : Nat) :
    (failN st stationId n).maxRetries = st.maxRetries := by
  induction n with
  | zero => rfl
  | succ n ih => simp [failN, markFailed, ih]

theorem retryDelay_failN (st : MonitorState) (stationId : String) (n : Nat) :
    (failN st stationId n).retryDelay = st.retryDelay := by
  induction n with
  | zero => rfl
  | succ n ih => simp [failN, markFailed, ih]

/-- **C7.** After `n` consecutive `mark_failed` calls for a station that was
previously unseen or Working (no failure entry), `should_retry` returns `true`
exactly when `n < max_retries`; in particular it is `false` at exactly
`max_retries` consecutive failures. -/
theorem shouldRetry_after_consecutive_failures
    (st : MonitorState) (stationId : String) (n : Nat)
    (hclean : st.failedStations stationId = none) :
    shouldRetry (failN st stationId n) stationId = decide (n < st.maxRetries)
    ∧ (n = st.maxRetries → shouldRetry (failN st stationId n) stationId = false) := by
  have hc : failCount (failN st stationId n) stationId = n := by
    rw [failCount_failN]
    simp [failCount, hclean]
  constructor
  · simp [shouldRetry, hc, maxRetries_failN]
  · intro hn
    subst hn
    simp only [shouldRetry, hc, maxRetries_failN, decide_eq_false_iff_not]
    omega

/-- Witness for C7 with the default `max_retries = 3`: retry allowed after 2
failures, refused after 3. -/
theorem shouldRetry_after_consecutive_failures_witness :
    shouldRetry (failN (initMonitor) "s" 2) "s" = true
    ∧ shouldRetry (failN (initMonitor) "s" 3) "s" = false := by
  have h2 := shouldRetry_after_consecutive_failures (initMonitor) "s" 2 rfl
  have h3 := shouldRetry_after_consecutive_failures (initMonitor) "s" 3 rfl
  exact ⟨by rw [h2.1]; rfl, h3.2 rfl⟩

/-- **C8.** `get_retry_delay` is linear, not exponential: after `n` consecutive
failures of a previously clean station it returns `retry_delay * (n + 1)`, and
on a station with no failure entry (unseen or Working) it returns the base
delay itself. -/
theorem getRetryDelay_linear_backoff
    (st : MonitorState) (stationId : String) (n : Nat)
    (hclean : st.failedStations stationId = none) :
    getRetryDelay (failN st stationId n) stationId = st.retryDelay * (n + 1)
    ∧ getRetryDelay st stationId = st.retryDelay := by
  have hc : failCount (failN st stationId n) stationId = n := by
    rw [failCount_failN]
    simp [failCount, hclean]
  constructor
  · simp [getRetryDelay, hc, retryDelay_failN]
  · simp [getRetryDelay, failCount, hclean]

/-- Witness for C8: after the 2nd consecutive failure with the default base
delay of 300 seconds the retry delay is `3 * 300 = 900` seconds. -/
theorem getRetryDelay_linear_backoff_witness :
    getRetryDelay (failN (initMonitor) "s" 2) "s" = 900 := by
  have h := (getRetryDelay_linear_backoff (initMonitor) "s" 2 rfl).1
  simpa [initMonitor] using h

/-! ## Station catalog merge (`arabic_radio_recorder.py`, lines 248-257)

`ArabicRadioStations.get_all_stations` builds `all_stations = {}`, then
`all_stations.update(st)` for each inner dict of `stations_by_country.values()`
and then for each inner dict of `stations_by_city.values()`.  Only lookup
semantics matter here, so a Python dict is modelled extensionally as
`String → Option String`; `d.update(e)` makes a key resolve through `e` first
and fall back to `d`. -/

def StrDict : Type := String → Option String

def emptyDict : StrDict := fun _ => none

/-- `d.update(e)`: keys of `e` overwrite keys of `d`. -/
def dictUpdate (d e : StrDict) : StrDict := fun k =>
  match e k with
  | some v => some v
  | none => d k

/-- Merging a list of dicts into an accumulator by repeated `update`. -/
def mergeInto (init : StrDict) (ds : List StrDict) : StrDict :=
  ds.foldl dictUpdate init

/-- `ArabicRadioStations.get_all_stations`: update with every country mapping,
then with every city mapping. -/
def get_all_stations (byCountry byCity : List StrDict) : StrDict :=
  mergeInto emptyDict (byCountry ++ byCity)

theorem mergeInto_apply (ds : List StrDict) (init : StrDict) (k : String) :
    mergeInto init ds k =
      match mergeInto emptyDict ds k with
      | some v => some v
      | none => init k := by
  induction ds generalizing init with
  | nil => simp [mergeInto, emptyDict]
  | cons d ds ih =>
    show mergeInto (dictUpdate init d) ds k = _
    rw [ih (dictUpdate init d)]
    conv_rhs => rw [show mergeInto emptyDict (d :: ds) = mergeInto (dictUpdate emptyDict d) ds from rfl,
      ih (dictUpdate emptyDict d)]
    cases mergeInto emptyDict ds k with
    | some v => rfl
    | none =>
      simp only [dictUpdate, emptyDict]
      cases d k <;> rfl

/-- **C10.** If a station id appears in some city mapping (so the merged city
dicts resolve it to `url`) and also in some country mapping, then
`get_all_stations` resolves it to the city-side URL: the city maps are merged
after the country maps and win on every duplicate id. -/
theorem get_all_stations_city_wins
    (byCountry byCity : List StrDict) (sid url : String)
    (hcountry : ∃ d ∈ byCountry, (d sid).isSome)
    (hcity : mergeInto emptyDict byCity sid = some url) :
    get_all_stations byCountry byCity sid = some url := by
  have hsplit : get_all_stations byCountry byCity sid =
      mergeInto (mergeInto emptyDict byCountry) byCity sid := by
    simp [get_all_stations, mergeInto, List.foldl_append]
  rw [hsplit, mergeInto_apply byCity (mergeInto emptyDict byCountry) sid, hcity]

/-- Witness for C10: id `s` maps to a country URL and a city URL; the merged
catalog returns the city URL. -/
theorem get_all_stations_city_wins_witness :
    get_all_stations
      [fun k => if k = "s" then some "country-url" else none]
      [fun k => if k = "s" then some "city-url" else none] "s" = some "city-url" := by
  refine get_all_stations_city_wins _ _ "s" "city-url"
    ⟨fun k => if k = "s" then some "country-url" else none, List.mem_singleton.mpr rfl, rfl⟩ rfl

/-! ## Batch health verification (`arabic_radio_recorder.py`, lines 205-224)

`verify_stations_health` submits one `verify_stream_url(url)` per `(sid, url)`
item of the input dict and collects results in completion order, inserting the
alive ids with their original URL into the `working` dict.  The input dict is
modelled as its item list in iteration order; the non-deterministic completion
order is an arbitrary permutation of it; the liveness probe is an oracle
`String → Bool` on the URL. -/

/-- The `working` dict built by `verify_stations_health`, as its item list in
insertion (= completion) order. -/
def verify_stations_health (completionOrder : List (String × String))
    (alive : String → Bool) : List (String × String) :=
  completionOrder.filter (fun p => alive p.2)

theorem mem_keys_nodup_unique_value
    {items : List (String × String)} {sid url url' : String}
    (hnodup : (items.map Prod.fst).Nodup)
    (h1 : (sid, url) ∈ items) (h2 : (sid, url') ∈ items) : url = url' := by
  induction items with
  | nil => cases h1
  | cons p rest ih =>
    rcases List.mem_cons.mp h1 with h1 | h1 <;> rcases List.mem_cons.mp h2 with h2 | h2
    · rw [← h1] at h2
      injection h2 with h h'
      exact h'.symm
    · exfalso
      have : sid ∈ rest.map Prod.fst := List.mem_map.mpr ⟨(sid, url'), h2, rfl⟩
      rw [← h1] at hnodup
      exact (List.nodup_cons.mp hnodup).1 this
    · exfalso
      have : sid ∈ rest.map Prod.fst := List.mem_map.mpr ⟨(sid, url), h1, rfl⟩
      rw [← h2] at hnodup
      exact (List.nodup_cons.mp hnodup).1 this
    · exact ih (List.nodup_cons.mp (by simpa using hnodup)).2 h1 h2

/-- **C6.** For every input item list, every completion order (any permutation
of it) and every liveness oracle, `verify_stations_health` returns only pairs
of the input — it never introduces a new id and, when the input keys are
distinct (as they are for a Python dict), every surviving id keeps exactly the
URL it had in the input. -/
theorem verify_stations_health_subset
    (items completionOrder : List (String × String)) (alive : String → Bool)
    (hperm : completionOrder.Perm items) :
    (∀ p ∈ verify_stations_health completionOrder alive, p ∈ items)
    ∧ ((items.map Prod.fst).Nodup →
        ∀ sid url url', (sid, url) ∈ verify_stations_health completionOrder alive →
          (sid, url') ∈ items → url = url') := by
  have hsub : ∀ p ∈ verify_stations_health completionOrder alive, p ∈ items := by
    intro p hp
    exact hperm.mem_iff.mp (List.mem_of_mem_filter hp)
  refine ⟨hsub, ?_⟩
  intro hnodup sid url url' hmem hmem'
  exact mem_keys_nodup_unique_value hnodup (hsub _ hmem) hmem'

/-- Witness for C6 on a concrete two-station batch whose completion order is
reversed from the input order. -/
theorem verify_stations_health_subset_witness :
    (∀ p ∈ verify_stations_health [("b", "vb"), ("a", "va")] (fun u => u == "va"),
        p ∈ [("a", "va"), ("b", "vb")])
    ∧ (("a", "va") ∈ verify_stations_health [("b", "vb"), ("a", "va")] (fun u => u == "va")) := by
  have h := verify_stations_health_subset [("a", "va"), ("b", "vb")]
      [("b", "vb"), ("a", "va")] (fun u => u == "va") (by decide)
  exact ⟨h.1, by decide⟩

/-! ## Stream-URL regex scans (`arabic_radio_recorder.py`, lines 71-97)

Inside `extract_direct_stream_url`, step (d) scans every inline script body
against a literal list of five regex patterns, first match wins; step (e) then
scans the raw page body against a second literal pattern list.  The pattern
lists are transcribed verbatim; the regex engine itself (`re.search` with
`re.IGNORECASE`) is an abstract matcher parameter, since the claims concern
which patterns are applied, in which order, and first-match-wins. -/

/-- The five patterns of the inline-script scan, lines 75-81, in source order. -/
def scriptScanPatterns : List String :=
  ["(https?://[^\\s\x27\"]+\\.(mp3|m3u8|aac|pls))",
   "(https?://[^\\s\x27\"]+stream[^\\s\x27\"]*)",
   "(https?://[^\\s\x27\"]+listen[^\\s\x27\"]*)",
   "(https?://[^\\s\x27\"]+radio[^\\s\x27\"]*)",
   "(https?://[^\\s\x27\"]+live[^\\s\x27\"]*)"]

/-- The three patterns of the raw-page-body scan, lines 89-93, in source order. -/
def contentScanPatterns : List String :=
  ["(https?://[^\\s\x27\"]+\\.(mp3|m3u8|aac|pls))",
   "(https?://[^\\s\x27\"]+stream[^\\s\x27\"]*)",
   "(https?://[^\\s\x27\"]+listen[^\\s\x27\"]*)"]

/-- One ordered scan: try each pattern in order on the text, first match wins
(`re.search` modelled by the abstract matcher `m`). -/
def scanFirstMatch (m : String → String → Option String)
    (patterns : List String) (text : String) : Option String :=
  patterns.findSome? (fun p => m p text)

/-- Step (d): scan each script body in order; within each, try the five script
patterns in order (lines 72-85). -/
def scanScripts (m : String → String → Option String)
    (scripts : List String) : Option String :=
  scripts.findSome? (fun s => scanFirstMatch m scriptScanPatterns s)

/-- Step (e): scan the raw page body with the three content patterns
(lines 87-97). -/
def scanPageContent (m : String → String → Option String)
    (content : String) : Option String :=
  scanFirstMatch m contentScanPatterns content

/-- **C2, counterexample.** The raw-page-body scan does not apply the same
pattern list as the inline-script scan: the source's content pattern list is
exactly the first three script patterns — the `radio` and `live` keyword
patterns are missing from it. -/
theorem contentScan_patterns_differ :
    contentScanPatterns ≠ scriptScanPatterns
    ∧ scriptScanPatterns.length = 5 ∧ contentScanPatterns.length = 3 := by
  refine ⟨?_, rfl, rfl⟩
  intro h
  have := congrArg List.length h
  simp [contentScanPatterns, scriptScanPatterns] at this

/-- **C2, amended.** The raw-page-body scan applies, in order with first match
winning, exactly the first three patterns of the inline-script scan — the
extension pattern, then the `stream` and `listen` keyword patterns; the `radio`
and `live` patterns of the script scan are omitted. -/
theorem contentScan_is_first_three_script_patterns
    (m : String → String → Option String) (content : String) :
    scanPageContent m content = scanFirstMatch m (scriptScanPatterns.take 3) content
    ∧ scriptScanPatterns.take 3 = contentScanPatterns := by
  have h : scriptScanPatterns.take 3 = contentScanPatterns := rfl
  exact ⟨by rw [h]; rfl, h⟩

/-! ## URL parsing helpers (`urllib.parse.urlparse`)

Only the `scheme` and `path` components are consumed by the modelled code.
`urlsplit` takes the text before the first `:` as the scheme when it is
non-empty, starts with an ASCII letter and consists of ASCII
letters/digits/`+`/`-`/`.`, lowercasing it; then a leading `//` introduces a
netloc running up to the next `/`, `?` or `#`; the fragment (after `#`) and the
query (after `?`) are then split off and the remainder is the path.  (The
legacy `;parameters` split of `urlparse` is omitted: none of the modelled
dispatches involve a `;` in the path.) -/

def takeUntilChar (c : Char) (l : List Char) : List Char := l.takeWhile (· ≠ c)

def afterChar (c : Char) : List Char → Option (List Char)
  | [] => none
  | x :: xs => if x = c then some xs else afterChar c xs

def isSchemeChar (c : Char) : Bool := c.isAlphanum || c == '+' || c == '-' || c == '.'

/-- ASCII lowercasing, as `str.lower` on the ASCII inputs involved here. -/
def toLowerL (l : List Char) : List Char := l.map Char.toLower

/-- Split a valid scheme off a URL: `some (lowercased scheme, rest)` or `none`. -/
def splitScheme (u : List Char) : Option (List Char × List Char) :=
  match afterChar ':' u with
  | none => none
  | some rest =>
    match takeUntilChar ':' u with
    | [] => none
    | c :: cs => if c.isAlpha && (c :: cs).all isSchemeChar
                 then some (toLowerL (c :: cs), rest) else none

/-- `urlparse(u).scheme`. -/
def urlScheme (u : String) : String :=
  match splitScheme u.data with
  | some (s, _) => String.mk s
  | none => ""

def dropNetloc (l : List Char) : List Char :=
  l.dropWhile (fun c => !(c == '/' || c == '?' || c == '#'))

/-- `urlparse(u).path`. -/
def urlPath (u : String) : String :=
  let rest := match splitScheme u.data with
    | some (_, r) => r
    | none => u.data
  let rest := match rest with
    | '/' :: '/' :: r => dropNetloc r
    | _ => rest
  String.mk (takeUntilChar '?' (takeUntilChar '#' rest))

/-! ## Liveness probe (`arabic_radio_recorder.py` lines 179-203; the identical
`verify_stream_url` in `check_all.py` lines 8-26)

Network effects are an oracle: `headStatus` is the status of
`requests.head(url)` (`none` = the request raised), `getResult` is the status
and body-chunk stream of `requests.get(url, stream=True)` (`none` = raised).
The `except Exception: return False` handler is the `none` branches.  The Lean
function is total by construction, matching "this function never raises". -/

structure NetProbe where
  headStatus : Option Nat
  getResult : Option (Nat × List (List Nat))

/-- Python `str.endswith`: a plain suffix test. -/
def pyEndsWith (s suffix : String) : Bool := suffix.data.isSuffixOf s.data

/-- `url.endswith(('.m3u8', '.m3u', '.pls'))` — note: tested on the whole URL
string, not on the parsed path. -/
def isPlaylistSuffixed (url : String) : Bool :=
  pyEndsWith url ".m3u8" || pyEndsWith url ".m3u" || pyEndsWith url ".pls"

/-- `verify_stream_url(url, timeout)`.  The timeout only parameterizes the
network oracle and does not otherwise influence control flow. -/
def verify_stream_url (url : String) (timeout : Nat) (net : NetProbe) : Bool :=
  if urlScheme url = "http" ∨ urlScheme url = "https" then
    if isPlaylistSuffixed url then
      match net.headStatus with
      | some code => code == 200
      | none => false
    else
      match net.getResult with
      | none => false
      | some (code, chunks) =>
        if code == 200 then
          match chunks with
          | [] => false
          | chunk :: _ => !chunk.isEmpty
        else false
  else true

/-- **C5.** `verify_stream_url` is total to Bool (it is a Lean function; every
exception outcome is a `none` oracle branch) and: a non-http(s) scheme is
trivially alive; a playlist-suffixed URL is alive iff the header probe returns
status 200; any other http(s) URL is alive iff the streaming GET returns 200
and its first body chunk is non-empty, and only the first chunk is ever
inspected; a raising probe (oracle `none`) always yields `false`. -/
theorem verify_stream_url_policy (url : String) (timeout : Nat) (net : NetProbe) :
    (¬ (urlScheme url = "http" ∨ urlScheme url = "https") →
        verify_stream_url url timeout net = true)
    ∧ ((urlScheme url = "http" ∨ urlScheme url = "https") →
        (isPlaylistSuffixed url = true →
          (verify_stream_url url timeout net = true ↔ net.headStatus = some 200))
        ∧ (isPlaylistSuffixed url = false →
          (verify_stream_url url timeout net = true ↔
            ∃ chunk rest, net.getResult = some (200, chunk :: rest) ∧ chunk ≠ []))
        ∧ (isPlaylistSuffixed url = true → net.headStatus = none →
            verify_stream_url url timeout net = false)
        ∧ (isPlaylistSuffixed url = false → net.getResult = none →
            verify_stream_url url timeout net = false)
        ∧ (∀ (code : Nat) (chunk : List Nat) (rest : List (List Nat))
              (hs : Option Nat),
            verify_stream_url url timeout ⟨hs, some (code, chunk :: rest)⟩ =
            verify_stream_url url timeout ⟨hs, some (code, [chunk])⟩)) := by
  constructor
  · intro h
    simp [verify_stream_url, h]
  · intro h
    refine ⟨?_, ?_, ?_, ?_, ?_⟩
    · intro hpl
      cases hhead : net.headStatus with
      | none => simp [verify_stream_url, h, hpl, hhead]
      | some code => simp [verify_stream_url, h, hpl, hhead]
    · intro hpl
      cases hget : net.getResult with
      | none => simp [verify_stream_url, h, hpl, hget]
      | some pr =>
        obtain ⟨code, chunks⟩ := pr
        cases chunks with
        | nil => simp [verify_stream_url, h, hpl, hget]
        | cons chunk rest =>
          by_cases hcode : code = 200
          · subst hcode
            simp [verify_stream_url, h, hpl, hget, List.isEmpty_iff]
          · constructor
            · intro hc
              exfalso
              simp [verify_stream_url, h, hpl, hget, hcode] at hc
            · rintro ⟨c, r, hc, -⟩
              injection hc with hpair
              exact absurd (congrArg Prod.fst hpair) hcode
    · intro hpl hhead
      simp [verify_stream_url, h, hpl, hhead]
    · intro hpl hget
      simp [verify_stream_url, h, hpl, hget]
    · intro code chunk rest hs
      simp [verify_stream_url, h]

/-- Witness for C5: a direct http stream URL whose GET returns 200 with a
non-empty first chunk is classified alive. -/
theorem verify_stream_url_policy_witness :
    verify_stream_url "http://example.com/stream" 5 ⟨none, some (200, [[7]])⟩ = true := by
  have h := (verify_stream_url_policy "http://example.com/stream" 5
      ⟨none, some (200, [[7]])⟩).2 (Or.inl (by decide))
  exact (h.2.1 (by decide)).mpr ⟨[7], [], rfl, by decide⟩

/-! ## Playlist resolution in `record_stream` (`arabic_radio_recorder.py`,
lines 128-157)

When the (possibly HTML-resolved) URL's parsed path ends in `.pls` or `.m3u`,
the playlist body is fetched (`fetched = none` models any fetch failure,
including `raise_for_status`) and scanned line by line; every exception of the
fetch/parse block is swallowed by the `except` handler, leaving the URL
unchanged for the ffmpeg invocation. -/

/-- `str.splitlines` boundaries (the `\r\n` pair is handled in the splitter). -/
def isLineBreak (c : Char) : Bool :=
  c == '\n' || c == '\r' || c == '\x0b' || c == '\x0c' ||
  c == '\x1c' || c == '\x1d' || c == '\x1e' || c == '\x85' ||
  c == Char.ofNat 8232 || c == Char.ofNat 8233

def splitLinesAux : List Char → List Char → List (List Char)
  | [], acc => if acc.isEmpty then [] else [acc.reverse]
  | '\r' :: '\n' :: rest, acc => acc.reverse :: splitLinesAux rest []
  | c :: rest, acc =>
    if isLineBreak c then acc.reverse :: splitLinesAux rest []
    else splitLinesAux rest (c :: acc)

/-- `content.splitlines()`. -/
def splitLines (s : String) : List (List Char) := splitLinesAux s.data []

/-- `str.strip()` whitespace set (ASCII part; the inputs here are ASCII). -/
def isPySpace (c : Char) : Bool :=
  c == ' ' || c == '\t' || c == '\n' || c == '\r' || c == '\x0b' || c == '\x0c'

/-- `line.strip()`. -/
def pyStrip (l : List Char) : List Char :=
  ((l.dropWhile isPySpace).reverse.dropWhile isPySpace).reverse

/-- `line.split('=', 1)[-1]`: the text after the first `=`, or the whole line
when there is no `=`. -/
def afterFirstEq (l : List Char) : List Char :=
  match afterChar '=' l with
  | some r => r
  | none => l

/-- One iteration of the PLS loop: the stripped line must start (after ASCII
lowering) with `file1=` and its stripped value must start with `http`;
otherwise the loop continues with the next line. -/
def plsLineCandidate (line : List Char) : Option (List Char) :=
  let l := pyStrip line
  if "file1=".data.isPrefixOf (toLowerL l) then
    let candidate := pyStrip (afterFirstEq l)
    if "http".data.isPrefixOf (toLowerL candidate) then some candidate else none
  else none

/-- One iteration of the M3U loop: the stripped line must start with `http`
(case-sensitive in the source). -/
def m3uLineCandidate (line : List Char) : Option (List Char) :=
  let l := pyStrip line
  if "http".data.isPrefixOf l then some l else none

/-- The playlist-parsing stage of `record_stream`: returns the URL handed to
the ffmpeg invocation.  Total by construction — the source wraps the whole
fetch/parse block in `try/except` and falls through with `url` unchanged. -/
def playlistStage (url : String) (fetched : Option String) : String :=
  let path := urlPath url
  if pyEndsWith path ".pls" || pyEndsWith path ".m3u" then
    match fetched with
    | none => url
    | some content =>
      if pyEndsWith path ".pls" then
        match (splitLines content).findSome? plsLineCandidate with
        | some candidate => String.mk candidate
        | none => url
      else
        match (splitLines content).findSome? m3uLineCandidate with
        | some line => String.mk line
        | none => url
  else url

/-- **C9.** For a URL whose parsed path ends in `.pls` or `.m3u`: a failed
fetch leaves the URL unchanged, and a fetched body none of whose lines matches
the expected shape (PLS: stripped line starting with `file1=` whose value
starts with an HTTP scheme; M3U: stripped line starting with `http`) also
leaves the URL unchanged — the stage raises nothing (it is a total function)
and the transport layer receives the original URL. -/
theorem not_endsWith_pls_and_m3u (s : String) :
    ¬ (pyEndsWith s ".pls" = true ∧ pyEndsWith s ".m3u" = true) := by
  rintro ⟨h1, h2⟩
  rw [pyEndsWith, List.isSuffixOf_iff_suffix] at h1 h2
  obtain ⟨t1, ht1⟩ := h1
  obtain ⟨t2, ht2⟩ := h2
  have h := List.append_inj' (ht1.trans ht2.symm) (by rfl)
  simp at h

theorem playlistStage_unchanged_on_no_match (url : String) (fetched : Option String) :
    (fetched = none → playlistStage url fetched = url)
    ∧ (pyEndsWith (urlPath url) ".pls" = true →
        ∀ body, fetched = some body →
          (∀ line ∈ splitLines body, plsLineCandidate line = none) →
          playlistStage url fetched = url)
    ∧ (pyEndsWith (urlPath url) ".m3u" = true →
        ∀ body, fetched = some body →
          (∀ line ∈ splitLines body, m3uLineCandidate line = none) →
          playlistStage url fetched = url) := by
  refine ⟨?_, ?_, ?_⟩
  · intro h
    subst h
    simp [playlistStage]
  · intro hpls body hbody hnone
    subst hbody
    have hfind : (splitLines body).findSome? plsLineCandidate = none :=
      List.findSome?_eq_none_iff.mpr hnone
    simp [playlistStage, hpls, hfind]
  · intro hm3u body hbody hnone
    subst hbody
    have hfind : (splitLines body).findSome? m3uLineCandidate = none :=
      List.findSome?_eq_none_iff.mpr hnone
    have hpls : pyEndsWith (urlPath url) ".pls" = false := by
      cases hb : pyEndsWith (urlPath url) ".pls" with
      | false => rfl
      | true => exact absurd ⟨hb, hm3u⟩ (not_endsWith_pls_and_m3u (urlPath url))
    simp [playlistStage, hm3u, hpls, hfind]

/-- Witness for C9: a PLS body whose only `file1=` line has a non-HTTP value,
and an M3U body with no `http` line; both leave the URL unchanged. -/
theorem playlistStage_unchanged_on_no_match_witness :
    playlistStage "http://h/a.pls" (some "File1=notaurl\nTitle1=x") = "http://h/a.pls"
    ∧ playlistStage "http://h/a.m3u" (some "#EXTM3U\nnotaurl") = "http://h/a.m3u" := by
  constructor
  · exact (playlistStage_unchanged_on_no_match "http://h/a.pls"
      (some "File1=notaurl\nTitle1=x")).2.1 (by decide) _ rfl (by decide)
  · exact (playlistStage_unchanged_on_no_match "http://h/a.m3u"
      (some "#EXTM3U\nnotaurl")).2.2 (by decide) _ rfl (by decide)

/-! ## Randomized-window scheduling (`scheduled_recorder.py`, lines 188-217)

`schedule_all_cities` computes `total_minutes = (end_hour - start_hour) * 60`
and `slots = total_minutes // interval_minutes`; when `slots < len(cities)` it
shrinks the interval to `total_minutes // len(cities)` and sets
`slots = len(cities)`; it then formats the slot times `f"HH:MM"`, shuffles
them, and pairs them with the cities by `zip`.  Python `//` and `%` are floor
division and floor remainder, i.e. `Int.fdiv` / `Int.fmod`; `f"{x:02d}"` is
decimal with zero-padding to width 2 (the sign counts toward the width).  The
random shuffle is quantified as an arbitrary permutation of the slot list. -/

def digitChar : Nat → Char
  | 0 => '0' | 1 => '1' | 2 => '2' | 3 => '3' | 4 => '4'
  | 5 => '5' | 6 => '6' | 7 => '7' | 8 => '8' | 9 => '9'
  | _ => '?'

def digitVal : Char → Nat
  | '0' => 0 | '1' => 1 | '2' => 2 | '3' => 3 | '4' => 4
  | '5' => 5 | '6' => 6 | '7' => 7 | '8' => 8 | '9' => 9
  | _ => 10

/-- Decimal digits of a natural number, most significant first. -/
def decChars (n : Nat) : List Char :=
  if h : n < 10 then [digitChar n]
  else decChars (n / 10) ++ [digitChar (n % 10)]
decreasing_by exact Nat.div_lt_self (by omega) (by omega)

/-- `f"{z:02d}"`: decimal, zero-padded to width 2 (sign included in width). -/
def fmt02 (z : Int) : List Char :=
  if z < 0 then '-' :: decChars z.natAbs
  else if z < 10 then '0' :: decChars z.toNat
  else decChars z.toNat

/-- `f"{hour:02d}:{minute:02d}"` for the minute-of-day value `m`, with
`hour = m // 60` and `minute = m % 60`. -/
def timeString (m : Int) : String :=
  String.mk (fmt02 (m.fdiv 60) ++ ':' :: fmt02 (m.fmod 60))

/-- The slot-time list computed by `schedule_all_cities` before shuffling. -/
def scheduleTimes (nCities : Nat) (startHour endHour intervalMinutes : Int) :
    List String :=
  let total := (endHour - startHour) * 60
  let slots0 := total.fdiv intervalMinutes
  let shrink := slots0 < (nCities : Int)
  let ivl := if shrink then total.fdiv (nCities : Int) else intervalMinutes
  let slots := if shrink then (nCities : Int) else slots0
  (List.range slots.toNat).map
    (fun i : Nat => timeString (startHour * 60 + (i : Int) * ivl))

/-- The `(city, time)` assignment made by `schedule_all_cities` given the
shuffled slot list (the function returns without scheduling when there are no
cities). -/
def schedule_all_cities (cities : List String) (shuffled : List String) :
    List (String × String) :=
  if cities.isEmpty then [] else cities.zip shuffled

/-! ### Decimal formatting is injective -/

def valAux (acc : Nat) : List Char → Nat
  | [] => acc
  | c :: cs => valAux (acc * 10 + digitVal c) cs

theorem valAux_append (l1 l2 : List Char) (acc : Nat) :
    valAux acc (l1 ++ l2) = valAux (valAux acc l1) l2 := by
  induction l1 generalizing acc with
  | nil => rfl
  | cons c cs ih => simp [valAux, ih]

theorem digitVal_digitChar : ∀ d < 10, digitVal (digitChar d) = d := by decide

theorem valAux_decChars (n : Nat) :
    ∀ acc, valAux acc (decChars n) = acc * 10 ^ (decChars n).length + n := by
  induction n using Nat.strong_induction_on with
  | _ n ih =>
    intro acc
    by_cases h : n < 10
    · rw [decChars, dif_pos h]
      simp [valAux, digitVal_digitChar n h]
    · rw [decChars, dif_neg h]
      have hlt : n / 10 < n := Nat.div_lt_self (by omega) (by omega)
      rw [valAux_append, ih (n / 10) hlt acc]
      have hmod : digitVal (digitChar (n % 10)) = n % 10 :=
        digitVal_digitChar _ (Nat.mod_lt n (by omega))
      simp only [valAux, hmod, List.length_append, List.length_singleton]
      have hpow : 10 ^ ((decChars (n / 10)).length + 1) =
          10 ^ (decChars (n / 10)).length * 10 := pow_succ 10 _
      have hdm : n / 10 * 10 + n % 10 = n := by omega
      rw [hpow]
      ring_nf
      omega

theorem valAux_decChars_zero (n : Nat) : valAux 0 (decChars n) = n := by
  simpa using valAux_decChars n 0

theorem decChars_digits (n : Nat) : ∀ c ∈ decChars n, digitVal c < 10 := by
  induction n using Nat.strong_induction_on with
  | _ n ih =>
    intro c hc
    by_cases h : n < 10
    · rw [decChars, dif_pos h] at hc
      rcases List.mem_singleton.mp hc with rfl
      rw [digitVal_digitChar n h]; exact h
    · rw [decChars, dif_neg h] at hc
      rcases List.mem_append.mp hc with hc | hc
      · exact ih (n / 10) (Nat.div_lt_self (by omega) (by omega)) c hc
      · rcases List.mem_singleton.mp hc with rfl
        have hm : n % 10 < 10 := Nat.mod_lt n (by omega)
        rw [digitVal_digitChar _ hm]; exact hm

theorem decChars_ne_nil (n : Nat) : decChars n ≠ [] := by
  by_cases h : n < 10
  · rw [decChars, dif_pos h]; simp
  · rw [decChars, dif_neg h]; simp

/-- Signed decoder: inverse of `fmt02` on its image. -/
def valZ : List Char → Int
  | [] => 0
  | c :: cs => if c = '-' then -((valAux 0 cs : Nat) : Int) else (valAux 0 (c :: cs) : Int)

theorem valZ_cons (c : Char) (cs : List Char) :
    valZ (c :: cs) =
      if c = '-' then -((valAux 0 cs : Nat) : Int) else ((valAux 0 (c :: cs) : Nat) : Int) := rfl

theorem valZ_fmt02 (z : Int) : valZ (fmt02 z) = z := by
  by_cases hneg : z < 0
  · rw [fmt02, if_pos hneg, valZ_cons, if_pos rfl]
    rw [valAux_decChars_zero, Int.ofNat_natAbs_of_nonpos (le_of_lt hneg)]
    omega
  · push_neg at hneg
    by_cases hsmall : z < 10
    · rw [fmt02, if_neg (not_lt.mpr hneg), if_pos hsmall]
      rw [valZ_cons, if_neg (by decide : ¬ ('0' : Char) = '-')]
      have h0 : valAux 0 ('0' :: decChars z.toNat) = valAux 0 (decChars z.toNat) := rfl
      rw [h0, valAux_decChars_zero, Int.toNat_of_nonneg hneg]
    · rw [fmt02, if_neg (not_lt.mpr hneg), if_neg hsmall]
      obtain ⟨c, cs, heq⟩ : ∃ c cs, decChars z.toNat = c :: cs := by
        cases hd : decChars z.toNat with
        | nil => exact absurd hd (decChars_ne_nil _)
        | cons c cs => exact ⟨c, cs, rfl⟩
      have hcdigit : digitVal c < 10 := decChars_digits z.toNat c (by rw [heq]; simp)
      have hcne : ¬ c = '-' := by
        intro hc
        rw [hc] at hcdigit
        exact absurd hcdigit (by decide)
      rw [heq, valZ_cons, if_neg hcne, ← heq, valAux_decChars_zero,
        Int.toNat_of_nonneg hneg]

theorem fmt02_inj {a b : Int} (h : fmt02 a = fmt02 b) : a = b := by
  have := congrArg valZ h
  rwa [valZ_fmt02, valZ_fmt02] at this

theorem colon_not_mem_fmt02 (z : Int) : ':' ∉ fmt02 z := by
  intro hmem
  by_cases hneg : z < 0
  · rw [fmt02, if_pos hneg] at hmem
    rcases List.mem_cons.mp hmem with hc | hc
    · exact absurd hc (by decide)
    · exact absurd (decChars_digits _ _ hc) (by decide)
  · by_cases hsmall : z < 10
    · rw [fmt02, if_neg hneg, if_pos hsmall] at hmem
      rcases List.mem_cons.mp hmem with hc | hc
      · exact absurd hc (by decide)
      · exact absurd (decChars_digits _ _ hc) (by decide)
    · rw [fmt02, if_neg hneg, if_neg hsmall] at hmem
      exact absurd (decChars_digits _ _ hmem) (by decide)

theorem append_sep_inj :
    ∀ (x1 x2 y1 y2 : List Char), x1 ++ ':' :: y1 = x2 ++ ':' :: y2 →
      ':' ∉ x1 → ':' ∉ x2 → x1 = x2 ∧ y1 = y2 := by
  intro x1
  induction x1 with
  | nil =>
    intro x2 y1 y2 heq h1 h2
    cases x2 with
    | nil => simpa using heq
    | cons b x2 =>
      exfalso
      have hb : b = ':' := by simpa using (List.cons.inj heq).1.symm
      exact h2 (by rw [hb] at *; exact List.mem_cons_self _ _)
  | cons a x1 ih =>
    intro x2 y1 y2 heq h1 h2
    cases x2 with
    | nil =>
      exfalso
      have ha : a = ':' := by simpa using (List.cons.inj heq).1
      exact h1 (by rw [ha] at *; exact List.mem_cons_self _ _)
    | cons b x2 =>
      have hab : a = b := by simpa using (List.cons.inj heq).1
      have htail := (List.cons.inj heq).2
      have h1' : ':' ∉ x1 := fun hx => h1 (List.mem_cons_of_mem _ hx)
      have h2' : ':' ∉ x2 := fun hx => h2 (List.mem_cons_of_mem _ hx)
      obtain ⟨hx, hy⟩ := ih x2 y1 y2 htail h1' h2'
      exact ⟨by rw [hab, hx], hy⟩

theorem timeString_inj {m1 m2 : Int} (h : timeString m1 = timeString m2) : m1 = m2 := by
  have hdata : fmt02 (m1.fdiv 60) ++ ':' :: fmt02 (m1.fmod 60) =
      fmt02 (m2.fdiv 60) ++ ':' :: fmt02 (m2.fmod 60) := by
    have := congrArg String.data h
    simpa [timeString] using this
  obtain ⟨hh, hm⟩ := append_sep_inj _ _ _ _ hdata
    (colon_not_mem_fmt02 _) (colon_not_mem_fmt02 _)
  have h1 : m1.fdiv 60 = m2.fdiv 60 := fmt02_inj hh
  have h2 : m1.fmod 60 = m2.fmod 60 := fmt02_inj hm
  have e1 := Int.fdiv_add_fmod m1 60
  have e2 := Int.fdiv_add_fmod m2 60
  omega

/-- In the shrink branch (`slots < cityCount`) the slot list is the formatted
arithmetic progression with the shrunken interval. -/
theorem scheduleTimes_shrink (nCities : Nat) (s e ivl : Int)
    (h : ((e - s) * 60).fdiv ivl < (nCities : Int)) :
    scheduleTimes nCities s e ivl =
      (List.range nCities).map
        (fun i : Nat =>
          timeString (s * 60 + (i : Int) * (((e - s) * 60).fdiv (nCities : Int)))) := by
  simp only [scheduleTimes, if_pos h, Int.toNat_natCast]

/-- **C1, counterexample.** With a 1-hour window (`start_hour = 0`,
`end_hour = 1`, `interval_minutes = 30`) and 61 cities, the call is in the
claim's scope (`slots = 2 < 61` cities) but the shrunken interval is
`60 // 61 = 0`, so all 61 generated slot times are the same `"00:00"` string
and the assigned slot times are not pairwise distinct. -/
theorem schedule_all_cities_shrink_cex :
    (((1 : Int) - 0) * 60).fdiv 30 < ((List.range 61).length : Int)
    ∧ ¬ (scheduleTimes (List.range 61).length 0 1 30).Nodup := by
  constructor
  · simp only [List.length_range]
    decide
  · intro hnodup
    rw [List.length_range] at hnodup
    rw [scheduleTimes_shrink 61 0 1 30 (by decide)] at hnodup
    have h01 := hnodup.get_inj_iff (i := ⟨0, by simp⟩) (j := ⟨1, by simp⟩)
    have hget : ((List.range 61).map
        (fun i : Nat =>
          timeString ((0 : Int) * 60 + (i : Int) * (((1 : Int) - 0) * 60).fdiv (61 : Nat)))).get
          ⟨0, by simp⟩ =
        ((List.range 61).map
        (fun i : Nat =>
          timeString ((0 : Int) * 60 + (i : Int) * (((1 : Int) - 0) * 60).fdiv (61 : Nat)))).get
          ⟨1, by simp⟩ := by
      simp only [List.get_eq_getElem, List.getElem_map, List.getElem_range]
      exact congrArg timeString (by decide)
    have := h01.mp hget
    simp at this

/-- **C1, amended.** In every `schedule_all_cities` call with fewer slots than
cities, provided the city list is non-empty (the function returns without
scheduling otherwise) and the window holds at least one minute per city
(`cityCount ≤ totalMinutes`, so the shrunken interval is ≥ 1 minute — the
counterexample shows the interval degenerates to 0 otherwise), every city is
assigned exactly one slot and the shuffled slot times are pairwise distinct:
no two cities share a slot. -/
theorem schedule_all_cities_shrink_unique_slots
    (cities : List String) (startHour endHour intervalMinutes : Int)
    (shuffled : List String)
    (hne : cities ≠ [])
    (hshrink : ((endHour - startHour) * 60).fdiv intervalMinutes < (cities.length : Int))
    (hfit : (cities.length : Int) ≤ (endHour - startHour) * 60)
    (hperm : (scheduleTimes cities.length startHour endHour intervalMinutes).Perm shuffled) :
    shuffled.Nodup
    ∧ (schedule_all_cities cities shuffled).map Prod.fst = cities
    ∧ (schedule_all_cities cities shuffled).length = cities.length := by
  have hL : 0 < cities.length := List.length_pos.mpr hne
  set total : Int := (endHour - startHour) * 60 with htotal
  set ivl : Int := total.fdiv (cities.length : Int) with hivl
  have hLpos : (0 : Int) < (cities.length : Int) := by exact_mod_cast hL
  have hivl1 : 1 ≤ ivl := by
    rw [hivl, Int.fdiv_eq_ediv total (le_of_lt hLpos)]
    rw [Int.le_ediv_iff_mul_le hLpos]
    omega
  have htimes : scheduleTimes cities.length startHour endHour intervalMinutes =
      (List.range cities.length).map
        (fun i : Nat => timeString (startHour * 60 + (i : Int) * ivl)) :=
    scheduleTimes_shrink cities.length startHour endHour intervalMinutes hshrink
  have hinj : Function.Injective
      (fun i : Nat => timeString (startHour * 60 + (i : Int) * ivl)) := by
    intro i j hij
    have harg : startHour * 60 + (i : Int) * ivl = startHour * 60 + (j : Int) * ivl :=
      timeString_inj hij
    have hmul : (i : Int) * ivl = (j : Int) * ivl := by omega
    have : (i : Int) = (j : Int) := by
      exact mul_right_cancel₀ (by omega) hmul
    exact_mod_cast this
  have hnodup : (scheduleTimes cities.length startHour endHour intervalMinutes).Nodup := by
    rw [htimes]
    exact List.Nodup.map hinj (List.nodup_range cities.length)
  have hshufnodup : shuffled.Nodup := hperm.nodup hnodup
  have hlen : shuffled.length = cities.length := by
    have := hperm.length_eq
    rw [htimes] at this
    simpa using this.symm
  have hassign : schedule_all_cities cities shuffled = cities.zip shuffled := by
    rw [schedule_all_cities, if_neg (by simpa [List.isEmpty_iff] using hne)]
  refine ⟨hshufnodup, ?_, ?_⟩
  · rw [hassign]
    exact List.map_fst_zip cities shuffled (le_of_eq hlen.symm)
  · rw [hassign, List.length_zip, hlen, Nat.min_self]

/-- Witness for the amended C1: a 2-hour window at 30-minute interval gives 4
slots for 5 cities; the shrunken 24-minute interval yields 5 pairwise distinct
slots, one per city (identity shuffle). -/
theorem schedule_all_cities_shrink_unique_slots_witness :
    (scheduleTimes 5 8 10 30).Nodup
    ∧ (schedule_all_cities ["a", "b", "c", "d", "e"]
        (scheduleTimes 5 8 10 30)).map Prod.fst = ["a", "b", "c", "d", "e"]
    ∧ (schedule_all_cities ["a", "b", "c", "d", "e"] (scheduleTimes 5 8 10 30)).length = 5 := by
  have h := schedule_all_cities_shrink_unique_slots ["a", "b", "c", "d", "e"] 8 10 30
      (scheduleTimes 5 8 10 30) (by decide) (by decide) (by decide) (List.Perm.refl _)
  exact h

/-! ## Recording attempts and retry scheduling (`scheduled_recorder.py`,
lines 150-187)

`record_city` iterates the city's working stations; a failed `record_stream`
invocation (modelled by `ok = false`) runs the `except` branch: `mark_failed`,
then, if `should_retry`, `schedule.every(retry_delay).seconds.do(retry_recording, ...)`.
`retry_recording` itself runs `mark_working` on success and only `mark_failed`
on failure — its body contains no `schedule` call.

The job queue is modelled from the documented semantics of the Python
`schedule` library used by the source: `schedule.every(n).seconds.do(job)`
registers a RECURRING job that is re-scheduled to run again `n` seconds after
each run; a job is only removed when it returns `schedule.CancelJob` or is
explicitly cancelled.  `retry_recording` returns `None` and the source never
cancels, so a fired job stays in the queue. -/

structure RetryJob where
  intervalSeconds : Nat
  sid : String
  url : String
  city : String
deriving DecidableEq

structure RecorderState where
  monitor : MonitorState
  jobs : List RetryJob

/-- One station's attempt inside the `record_city` loop (lines 150-168):
`ok = true` is a successful `record_stream`, `ok = false` a raising one. -/
def recordStationAttempt (st : RecorderState) (sid url city : String)
    (now : Nat) (ok : Bool) : RecorderState :=
  if ok then { st with monitor := markWorking st.monitor sid now }
  else
    let m := markFailed st.monitor sid
    if shouldRetry m sid then
      { monitor := m, jobs := st.jobs ++ [⟨getRetryDelay m sid, sid, url, city⟩] }
    else { st with monitor := m }

/-- The timer loop firing a due retry job (lines 170-187): `retry_recording`
runs, and — per the `schedule` library — the recurring job stays registered
(nothing in `retry_recording` cancels or returns `CancelJob`). -/
def fireRetryJob (st : RecorderState) (j : RetryJob) (now : Nat) (ok : Bool) :
    RecorderState :=
  { st with monitor := if ok then markWorking st.monitor j.sid now
                       else markFailed st.monitor j.sid }

/-- **C3** (the code contradicts the one-shot-retry claim).  Concrete failing
run: station `s` fails its initial recording attempt with a fresh monitor, so
`mark_failed` runs, `should_retry` holds and a retry job with delay
`300 * 2 = 600` is registered; the retry fires and fails, `mark_failed` runs
again (count 2) — but the job registered with `schedule.every(...).seconds.do`
is recurring and still registered after firing, so the retry is not one-shot:
it will fire again 600 seconds later.  (The retry path itself registers
nothing: `fireRetryJob` leaves the queue unchanged by definition, which is the
claim's true half.) -/
theorem retry_job_recurs_after_failed_retry :
    (recordStationAttempt ⟨initMonitor, []⟩ "s" "u" "c" 0 false).jobs =
      [⟨600, "s", "u", "c"⟩]
    ∧ (fireRetryJob (recordStationAttempt ⟨initMonitor, []⟩ "s" "u" "c" 0 false)
        ⟨600, "s", "u", "c"⟩ 600 false).jobs = [⟨600, "s", "u", "c"⟩]
    ∧ failCount (fireRetryJob (recordStationAttempt ⟨initMonitor, []⟩ "s" "u" "c" 0 false)
        ⟨600, "s", "u", "c"⟩ 600 false).monitor "s" = 2 := by
  refine ⟨?_, ?_, ?_⟩ <;> decide

end RadioRec
